import Mathlib

set_option maxRecDepth 8000
set_option exponentiation.threshold 1100

/-!
# Verification of the go-tfe transport and encoding core

Shallow embedding of the shared transport layer of the `go-tfe` client
(file `tfe.go` of the repository): the retry policy (`retryHTTPCheck`),
the rate-limit backoff (`rateLimitBackoff`), the rate governor
(`configureLimiter`), the query encoder (`encodeQueryParams` /
`validSliceKey`), the body encoder (`serializeRequestBody`), the response
decoder (`unmarshalResponse`), the error classifier (`checkResponseCode` /
`decodeErrorPayload` / `errorPayloadContains`) and the auxiliary IP-ranges
round trip (`customDo`).

Go machine integers are modelled as `Int` (statuses, durations in
nanoseconds) or `Nat`; Go `float64` values reaching these functions are
modelled as exact rationals (`ℚ`), together with an explicit infinity for
`strconv.ParseFloat`'s overflow behaviour.  Wherever a theorem below
depends on a concrete `float64` computation (`100 * 0.66`, `100 * 0.33`,
`2 * 1e9`), the IEEE-754 double-precision result is exactly the rational
result (`66`, `33`, `2e9`: the roundings of `100 * double(0.66)` and
`100 * double(0.33)` land exactly on `66.0` and `33.0`), so the rational
model agrees with the executed code at every input a theorem evaluates.

External collaborators (the `strconv`, `strings` and `encoding/json`
standard-library packages, the `jsonapi` library and the
`golang.org/x/time/rate` limiter) are modelled by their documented
contracts; the repository's own code is translated line by line.
-/

namespace GoTfe

/-- Go `strings.Contains e m`: `m` occurs as a contiguous substring of `e`. -/
def strContains (s m : String) : Bool :=
  decide (m.data <:+: s.data)

/-- Go `strings.HasSuffix s suffix`. -/
def hasSuffix (s suffix : String) : Bool :=
  decide (suffix.data <:+ s.data)

/-! ## Error taxonomy

The sentinel errors of the repository (`errors.go` is referenced by
`tfe.go` through `ErrUnauthorized`, `ErrResourceNotFound`,
`ErrWorkspaceLocked`, `ErrWorkspaceNotLocked`, `ErrWorkspaceLockedByRun`,
`ErrItemsMustBeSlice`, `ErrInvalidRequestBody`, `ErrInvalidStructFormat`);
each is a distinct named condition, plus the generic formatted message. -/

inductive TfeError
  | unauthorized
  | resourceNotFound
  | workspaceLocked
  | workspaceNotLocked
  | workspaceLockedByRun
  | generic (msg : String)
  deriving DecidableEq, Repr

/-! ## Error classifier (`checkResponseCode`, `decodeErrorPayload`,
`errorPayloadContains`) -/

/-- One entry of a `jsonapi.ErrorsPayload`: a title and an optional
detail (empty string when absent), as consumed by `decodeErrorPayload`. -/
structure ErrorObject where
  title : String
  detail : String
  deriving DecidableEq, Repr

/-- The raw error payload of a response body as seen by
`json.NewDecoder(r.Body).Decode(errPayload)`: `none` models a JSON decode
failure, `some l` a successfully decoded payload with error list `l`. -/
abbrev RawErrorPayload : Type := Option (List ErrorObject)

/-- Go `decodeErrorPayload(r)`: decode the error payload; if decoding
fails or yields no entries, fail with the raw status line; otherwise
format each entry as its title, or `title ++ "\n\n" ++ detail` when a
detail is present. -/
def decodeErrorPayload (statusLine : String) (raw : RawErrorPayload) :
    Except String (List String) :=
  match raw with
  | none => .error statusLine
  | some [] => .error statusLine
  | some es =>
      .ok (es.map fun e =>
        if e.detail = "" then e.title else e.title ++ "\n\n" ++ e.detail)

/-- Go `errorPayloadContains(payloadErrors, match)`: the loop over the
decoded messages testing `strings.Contains`. -/
def errorPayloadContains (payloadErrors : List String) (m : String) : Bool :=
  match payloadErrors with
  | [] => false
  | e :: rest =>
      if strContains e m then true else errorPayloadContains rest m

/-- Go `checkResponseCode(r)`: 2xx is success; 401 and 404 map directly;
409 dispatches on the request path suffix; every other non-2xx decodes the
error payload into a generic formatted message. -/
def checkResponseCode (status : Int) (path statusLine : String)
    (raw : RawErrorPayload) : Option TfeError :=
  if 200 ≤ status ∧ status ≤ 299 then
    none
  else if status = 401 then
    some .unauthorized
  else if status = 404 then
    some .resourceNotFound
  else if status = 409 ∧ hasSuffix path "actions/lock" then
    some .workspaceLocked
  else if status = 409 ∧ hasSuffix path "actions/unlock" then
    match decodeErrorPayload statusLine raw with
    | .error e => some (.generic e)
    | .ok errs =>
        if errorPayloadContains errs "is locked by Run" then
          some .workspaceLockedByRun
        else
          some .workspaceNotLocked
  else if status = 409 ∧ hasSuffix path "actions/force-unlock" then
    some .workspaceNotLocked
  else
    match decodeErrorPayload statusLine raw with
    | .error e => some (.generic e)
    | .ok errs => some (.generic (String.intercalate "\n" errs))

/-! ## Retry policy (`retryHTTPCheck`) -/

/-- The outcome of one HTTP attempt as handed to `Client.CheckRetry`: a
transport-level error (in which case no response exists) or a response
with its status code. -/
def Attempt : Type := Except String Int

/-- Go `(c *Client) retryHTTPCheck(ctx, resp, err)`: a fired cancellation
wins; a transport error retries only under the server-error-retry flag and
surfaces the error; a 429, or a ≥ 500 status under the flag, retries;
everything else stops.  The pair is Go's `(bool, error)` return. -/
def retryHTTPCheck (retryServerErrors : Bool) (ctxErr : Option String)
    (attempt : Attempt) : Bool × Option String :=
  match ctxErr with
  | some e => (false, some e)
  | none =>
    match attempt with
    | .error e => (retryServerErrors, some e)
    | .ok status =>
        if status = 429 ∨ (retryServerErrors ∧ 500 ≤ status) then
          (true, none)
        else
          (false, none)

/-! ## The `strconv.ParseFloat` collaborator -/

/-- A `float64` value produced by parsing a rate-limit or rate-reset
header: an exact rational, or positive infinity (the value
`strconv.ParseFloat` returns for a syntactically valid number above the
`float64` range). -/
inductive FloatVal
  | num (q : ℚ)
  | posInf
  deriving DecidableEq, Repr

/-- The error component of `strconv.ParseFloat`'s result. -/
inductive ParseFloatErr
  | syntaxErr
  | rangeErr
  deriving DecidableEq, Repr

/-- Go's `float64` positivity test `f > 0` on the modelled values. -/
def FloatVal.isPos : FloatVal → Bool
  | .num q => 0 < q
  | .posInf => true

/-- The decimal value of a digit string, or `none` when the string is
empty or holds a non-digit character. -/
def digitsToNat : List Char → Option ℕ
  | [] => none
  | cs => go cs 0
where
  go : List Char → ℕ → Option ℕ
  | [], acc => some acc
  | c :: cs, acc =>
      if c.isDigit then go cs (acc * 10 + (c.toNat - '0'.toNat)) else none

/-- The smallest natural number that `strconv.ParseFloat` reports as a
range overflow: one half unit in the last place above the largest finite
`float64`, `(2^53 - 1) * 2^971 + 2^970 = 2^1024 - 2^970`. -/
def floatOverflowBound : ℕ := 2 ^ 1024 - 2 ^ 970

/-- Modelled from the documented contract of `strconv.ParseFloat(v, 64)`
(an external standard-library collaborator), restricted to unsigned
decimal digit strings, the only well-formed numbers this model needs: a
non-numeric string yields the value `0` together with a syntax error; a
digit string within `float64` range yields its value (exact at every
input any theorem below evaluates) and no error; a digit string at or
above the overflow bound yields `+Inf` together with a range error. -/
def parseFloat (s : String) : FloatVal × Option ParseFloatErr :=
  match digitsToNat s.data with
  | none => (.num 0, some .syntaxErr)
  | some n =>
      if floatOverflowBound ≤ n then (.posInf, some .rangeErr)
      else (.num n, none)

/-! ## Rate governor (`configureLimiter`) -/

/-- A `rate.Limit` value: a steady rate in events per second, or
`rate.Inf`. -/
inductive RateLimit
  | rate (q : ℚ)
  | inf
  deriving DecidableEq, Repr

/-- How a call to `configureLimiter` ends: aborting the process through
`log.Fatal`, or installing a limiter with the given limit and burst. -/
inductive LimiterOutcome
  | fatal
  | limiter (limit : RateLimit) (burst : Int)
  deriving DecidableEq, Repr

/-- Go's conversion `int(q)` of a non-negative `float64`: truncation
toward zero, which on non-negative values is the floor. -/
def intTrunc (q : ℚ) : Int :=
  if 0 ≤ q then ⌊q⌋ else -⌊-q⌋

/-- Go `(c *Client) configureLimiter(rawLimit)`: defaults to an infinite
rate with zero burst; a non-empty raw limit is parsed, and only a
positive parsed value reconfigures the pair — aborting first via
`log.Fatal(err)` when the parse also reported an error — to a steady
rate of `rateLimit * 0.66` and a burst of `int(rateLimit * 0.33)`.
At every rational the theorems below evaluate, the exact products equal
the rounded `float64` products, so `ℚ` arithmetic is used.  (The
`posInf` value with no error is unreachable under `parseFloat`; its
branch mirrors `rate.Inf` with the implementation-dependent Go
`int(+Inf)` conversion of the gc runtime.) -/
def configureLimiter (rawLimit : String) : LimiterOutcome :=
  let defaultLimit : RateLimit := .inf
  let defaultBurst : Int := 0
  if rawLimit = "" then
    .limiter defaultLimit defaultBurst
  else
    match parseFloat rawLimit with
    | (rateLimit, err) =>
      if rateLimit.isPos then
        if err.isSome then
          .fatal
        else
          match rateLimit with
          | .num q => .limiter (.rate (q * (66 / 100))) (intTrunc (q * (33 / 100)))
          | .posInf => .limiter .inf (-(2 ^ 63))
      else
        .limiter defaultLimit defaultBurst

/-- Modelled from the documented contract of `rate.NewLimiter` /
`rate.Limiter.Wait` (an external collaborator): a limiter whose limit is
`rate.Inf` allows all events, so acquiring a token never blocks,
whatever the burst and the call volume. -/
def limiterNeverBlocks : RateLimit → Bool
  | .inf => true
  | .rate _ => false

/-! ## Rate-limit backoff (`rateLimitBackoff`) -/

/-- Go's conversion `time.Duration(f)` of a `float64` number of
nanoseconds to an integer nanosecond count. -/
def durationOfFloat : FloatVal → Int
  | .num q => intTrunc q
  | .posInf => 2 ^ 63 - 1

/-- Go `rateLimitBackoff(min, max, resp)`.  Durations are integer
nanosecond counts.  The pseudo-random draw `rnd.Float64()` is the
parameter `rndFloat`, a value in `[0, 1)`; the jitter is
`time.Duration(rndFloat * float64(max-min))`.  A present, non-empty
`X-RateLimit-Reset` header is parsed — `log.Fatal` on a parse error,
modelled as `.error ()` — and a positive reset whose nanosecond duration
exceeds `min` replaces `min`; the wait is `min + jitter`. -/
def rateLimitBackoff (min max : Int) (resetHeader : Option String)
    (rndFloat : ℚ) : Except Unit Int :=
  let jitter : Int := intTrunc (rndFloat * ((max - min : Int) : ℚ))
  match resetHeader with
  | none => .ok (min + jitter)
  | some v =>
      if v = "" then .ok (min + jitter)
      else
        match parseFloat v with
        | (_, some _) => .error ()
        | (reset, none) =>
            let min' :=
              if reset.isPos ∧ min < durationOfFloat (resetTimesBillion reset) then
                durationOfFloat (resetTimesBillion reset)
              else min
            .ok (min' + jitter)
where
  /-- The product `reset * 1e9` (exact at `reset = 2`, the only value a
  theorem below evaluates). -/
  resetTimesBillion : FloatVal → FloatVal
    | .num q => .num (q * 1000000000)
    | .posInf => .posInf

/-! ## Auxiliary IP-ranges round trip (`customDo`) -/

/-- What `customDo` decides to do with a response once it has one. -/
inductive IPRangesStep
  | errHTTPResponse (status : Int)
  | notModified
  | decodeBody
  deriving DecidableEq, Repr

/-- The status classification inside `(i *ipRanges) customDo`: the guard
`resp.StatusCode < 200 && resp.StatusCode >= 400` raises the
"error HTTP response while retrieving IP ranges" failure, 304 returns
without decoding, and every other status decodes the JSON body. -/
def customDoClassify (status : Int) : IPRangesStep :=
  if status < 200 ∧ 400 ≤ status then
    .errHTTPResponse status
  else if status = 304 then
    .notModified
  else
    .decodeBody

/-! ## Query encoder (`encodeQueryParams`, `validSliceKey`) -/

/-- Go `validSliceKey(key)`: the key is the literal `include` parameter
or contains the bracketed filter prefix. -/
def validSliceKey (key : String) : Bool :=
  key = "include" ∨ strContains key "filter["

/-- The uppercase hexadecimal digit of `n < 16`
(Go `"0123456789ABCDEF"[b]`). -/
def hexUpper (n : ℕ) : Char :=
  "0123456789ABCDEF".data.getD n '0'

/-- Modelled from the documented contract of `url.QueryEscape` (an
external standard-library collaborator): each byte of the UTF-8 encoding
is kept when unreserved (an ASCII letter or digit, `-`, `_`, `.`, `~`),
a space becomes `+`, and every other byte becomes `%` followed by its
two uppercase hexadecimal digits. -/
def queryEscape (s : String) : String :=
  String.mk (s.toUTF8.toList.foldr (fun b acc => escapeByte b.toNat ++ acc) [])
where
  /-- Escape one byte value. -/
  escapeByte (b : ℕ) : List Char :=
    if (65 ≤ b ∧ b ≤ 90) ∨ (97 ≤ b ∧ b ≤ 122) ∨ (48 ≤ b ∧ b ≤ 57) ∨
        b = 45 ∨ b = 95 ∨ b = 46 ∨ b = 126 then
      [Char.ofNat b]
    else if b = 32 then
      ['+']
    else
      ['%', hexUpper (b / 16), hexUpper (b % 16)]

/-- One step of the Go insertion into sorted key order (the model of
`sort.Strings`, whose result on the distinct keys of a map is the unique
sorted arrangement). -/
def insertSorted (x : String) : List String → List String
  | [] => [x]
  | y :: ys => if x ≤ y then x :: y :: ys else y :: insertSorted x ys

/-- Sort the key list (`sort.Strings(keys)`). -/
def sortStrings : List String → List String
  | [] => []
  | x :: xs => insertSorted x (sortStrings xs)

/-- The per-key value rewrite of `encodeQueryParams`: a multi-valued key
accepted by `validSliceKey` collapses to the single comma-joined value
(`strings.Join(vs, ",")`); any other value list is kept as is. -/
def encodeValuesForKey (k : String) (vs : List String) : List String :=
  if 1 < vs.length ∧ validSliceKey k then [String.intercalate "," vs] else vs

/-- The key/value pairs the inner loop of `encodeQueryParams` writes for
one key: the map's values at that key (`vs := v[k]`), rewritten by the
comma-join rule, each paired with the key. -/
def pairsForKey (v : List (String × List String)) (k : String) :
    List (String × String) :=
  (encodeValuesForKey k ((v.lookup k).getD [])).map fun x => (k, x)

/-- The full sequence of `key=value` pairs `encodeQueryParams` emits: the
loop over the sorted keys, in order. -/
def emittedPairs (v : List (String × List String)) : List (String × String) :=
  (sortStrings (v.map Prod.fst)).foldr (fun k acc => pairsForKey v k ++ acc) []

/-- Go `encodeQueryParams(v)` over a model of `url.Values` as an
association list with distinct keys: the emitted pairs, each key and
value percent-encoded, joined by `=` and separated by `&` in the output
buffer. -/
def encodeQueryParams (v : List (String × List String)) : String :=
  String.intercalate "&"
    ((emittedPairs v).map fun p => queryEscape p.1 ++ "=" ++ queryEscape p.2)

/-! ## Body encoder (`serializeRequestBody`) -/

/-- The two struct tags `serializeRequestBody` inspects on each field of
the model type: the `jsonapi` tag and the `json` tag, each the empty
string when absent. -/
structure FieldTags where
  jsonapiTag : String
  jsonTag : String
  deriving DecidableEq, Repr

/-- The reflected shape of a request payload as `serializeRequestBody`
probes it with `reflect`: a slice (whose element kind may or may not be a
pointer) with the pointed-to model type's field tags, a pointer with the
pointee's field tags, or any other kind. -/
inductive BodyShape
  | slice (elemIsPtr : Bool) (fields : List FieldTags)
  | ptr (fields : List FieldTags)
  | otherKind
  deriving DecidableEq, Repr

/-- How `serializeRequestBody` ends. -/
inductive SerializeOutcome
  | errInvalidRequestBody
  | errInvalidStructFormat
  | jsonBody
  | jsonapiBody
  deriving DecidableEq, Repr

/-- The loop counting the model type's fields whose `jsonapi` tag is
non-empty. -/
def countJSONAPIFields (fields : List FieldTags) : ℕ :=
  fields.countP fun f => f.jsonapiTag ≠ ""

/-- The loop counting the model type's fields whose `json` tag is
non-empty. -/
def countJSONFields (fields : List FieldTags) : ℕ :=
  fields.countP fun f => f.jsonTag ≠ ""

/-- Go `serializeRequestBody(v)`: a slice of non-pointers, or a value
that is neither a slice nor a pointer, is `ErrInvalidRequestBody`; a
model type tagged for both dialects is `ErrInvalidStructFormat`; any
`json`-tagged field selects plain `json.Marshal`, and otherwise the body
is `jsonapi.MarshalPayloadWithoutIncluded`. -/
def serializeRequestBody (v : BodyShape) : SerializeOutcome :=
  match v with
  | .slice elemIsPtr fields =>
      if ¬ elemIsPtr then .errInvalidRequestBody
      else serializeModel fields
  | .ptr fields => serializeModel fields
  | .otherKind => .errInvalidRequestBody
where
  /-- The tag-counting tail of `serializeRequestBody`, shared by the
  slice-of-pointers and plain-pointer shapes once `modelType` is known. -/
  serializeModel (fields : List FieldTags) : SerializeOutcome :=
    if 0 < countJSONAPIFields fields ∧ 0 < countJSONFields fields then
      .errInvalidStructFormat
    else if 0 < countJSONFields fields then
      .jsonBody
    else
      .jsonapiBody

/-! ## Response decoder (`unmarshalResponse`) -/

/-- Pagination is used to return the pagination details of an API
request (`parsePagination`'s result type). -/
structure Pagination where
  currentPage : Int
  previousPage : Int
  nextPage : Int
  totalPages : Int
  totalCount : Int
  deriving DecidableEq, Repr

/-- The reflected shape of a decode destination as `unmarshalResponse`
probes it: whether the indirected value is a struct, whether it declares
an `Items` field, whether it declares a `Pagination` field, and whether
the `Items` field's type is a slice. -/
structure DestShape where
  isStruct : Bool
  hasItems : Bool
  hasPagination : Bool
  itemsIsSlice : Bool
  deriving DecidableEq, Repr

/-- The behaviour of the external decoding collaborators on one concrete
response body, over an element type `α`: the result of
`jsonapi.UnmarshalPayload` (single-resource decode), of
`jsonapi.UnmarshalManyPayload` (the element list of a multi-resource
envelope) and of `parsePagination` on the same bytes. -/
structure ResponseBody (α : Type) where
  single : Except String Unit
  many : Except String (List α)
  pagination : Except String Pagination
  deriving Repr

/-- The decode destination's mutable fields: `none` / `false` until the
corresponding `Set` (or single-payload decode) has run. -/
structure Dest (α : Type) where
  singleDecoded : Bool := false
  items : Option (List α) := none
  pagination : Option Pagination := none
  deriving DecidableEq, Repr

/-- The failures `unmarshalResponse` can return. -/
inductive UnmarshalErr
  | notStruct
  | itemsMustBeSlice
  | libErr (msg : String)
  deriving DecidableEq, Repr

/-- The single-resource branch of `unmarshalResponse`: delegate the whole
body to `jsonapi.UnmarshalPayload(responseBody, model)`. -/
def unmarshalSingle {α : Type} (body : ResponseBody α) (dst : Dest α) :
    Dest α × Option UnmarshalErr :=
  match body.single with
  | .error e => (dst, some (.libErr e))
  | .ok _ => ({ dst with singleDecoded := true }, none)

/-- Go `unmarshalResponse(responseBody, model)`: a non-struct destination
is an error; a destination missing the `Items` field or missing the
`Pagination` field is decoded as a single value; otherwise a non-slice
`Items` is `ErrItemsMustBeSlice`, and the multi-resource path decodes the
element list, sets `Items`, then parses and sets `Pagination` — each
decode failure returned as it occurs. -/
def unmarshalResponse {α : Type} (shape : DestShape) (body : ResponseBody α)
    (dst : Dest α) : Dest α × Option UnmarshalErr :=
  if ¬ shape.isStruct then
    (dst, some .notStruct)
  else if ¬ shape.hasItems ∨ ¬ shape.hasPagination then
    unmarshalSingle body dst
  else if ¬ shape.itemsIsSlice then
    (dst, some .itemsMustBeSlice)
  else
    match body.many with
    | .error e => (dst, some (.libErr e))
    | .ok raw =>
        let dst' := { dst with items := some raw }
        match body.pagination with
        | .error e => (dst', some (.libErr e))
        | .ok p => ({ dst' with pagination := some p }, none)

/-- A concrete raw rate-limit header value above the `float64` range:
the decimal digits of `2 * 10 ^ 308` (the largest finite `float64` is
below `1.8 * 10 ^ 308`). -/
def overflowRateLimit : String := String.mk ('2' :: List.replicate 308 '0')

/-! ## Helper lemmas -/

theorem errorPayloadContains_iff (errs : List String) (m : String) :
    errorPayloadContains errs m = true ↔ ∃ e ∈ errs, strContains e m = true := by
  induction errs with
  | nil => simp [errorPayloadContains]
  | cons e rest ih =>
      by_cases h : strContains e m = true
      · simp [errorPayloadContains, h]
      · simp only [errorPayloadContains, if_neg h, ih]
        simp only [List.mem_cons]
        constructor
        · rintro ⟨x, hx, hc⟩
          exact ⟨x, Or.inr hx, hc⟩
        · rintro ⟨x, hx | hx, hc⟩
          · exact absurd (hx ▸ hc) h
          · exact ⟨x, hx, hc⟩

/-- Two suffixes of one string are comparable; a shorter suffix pattern
that is not itself a suffix of a longer one cannot match a string the
longer one matches. -/
theorem hasSuffix_excl {s t : String} (hlen : t.data.length ≤ s.data.length)
    (hts : ¬ t.data <:+ s.data) {p : String} (h : hasSuffix p s = true) :
    hasSuffix p t = false := by
  simp only [hasSuffix, decide_eq_true_eq] at h ⊢
  simp only [decide_eq_false_iff_not]
  intro htp
  rcases List.suffix_or_suffix_of_suffix htp h with hc | hc
  · exact hts hc
  · have hEq : s.data = t.data := hc.eq_of_length (le_antisymm hc.length_le hlen)
    exact hts (by rw [hEq])

/-- Evaluation of `parseFloat` on an in-range digit string. -/
theorem parseFloat_in_range {s : String} {n : ℕ}
    (hd : digitsToNat s.data = some n) (hlt : n < floatOverflowBound) :
    parseFloat s = (.num n, none) := by
  simp [parseFloat, hd, not_le.mpr hlt]

/-- Evaluation of `parseFloat` on an overflowing digit string. -/
theorem parseFloat_overflow {s : String} {n : ℕ}
    (hd : digitsToNat s.data = some n) (hge : floatOverflowBound ≤ n) :
    parseFloat s = (.posInf, some .rangeErr) := by
  simp [parseFloat, hd, hge]

theorem parseFloat_100 : parseFloat "100" = (.num 100, none) := by
  have hd : digitsToNat "100".data = some 100 := by decide
  have hlt : (100 : ℕ) < floatOverflowBound := by
    have h1 : (2 : ℕ) ^ 970 + 100 < 2 ^ 1024 := by
      calc (2 : ℕ) ^ 970 + 100 < 2 ^ 970 + 2 ^ 970 := by
            have : (100 : ℕ) < 2 ^ 970 :=
              lt_of_lt_of_le (by norm_num) (Nat.pow_le_pow_right (by norm_num)
                (by norm_num : 7 ≤ 970))
            omega
        _ = 2 ^ 971 := by ring
        _ ≤ 2 ^ 1024 := Nat.pow_le_pow_right (by norm_num) (by norm_num)
    simp only [floatOverflowBound]
    omega
  simpa using parseFloat_in_range hd hlt

theorem parseFloat_0 : parseFloat "0" = (.num 0, none) := by
  have hd : digitsToNat "0".data = some 0 := by decide
  have hlt : (0 : ℕ) < floatOverflowBound := by
    have h1 : (2 : ℕ) ^ 970 < 2 ^ 1024 :=
      Nat.pow_lt_pow_right (by norm_num) (by norm_num)
    simp only [floatOverflowBound]
    omega
  simpa using parseFloat_in_range hd hlt

theorem parseFloat_2 : parseFloat "2" = (.num 2, none) := by
  have hd : digitsToNat "2".data = some 2 := by decide
  have hlt : (2 : ℕ) < floatOverflowBound := by
    have h1 : (2 : ℕ) ^ 970 + 2 < 2 ^ 1024 := by
      have h2 : (2 : ℕ) ^ 970 + 2 < 2 ^ 970 + 2 ^ 970 := by
        have : (2 : ℕ) < 2 ^ 970 :=
          lt_of_lt_of_le (by norm_num) (Nat.pow_le_pow_right (by norm_num)
            (by norm_num : 2 ≤ 970))
        omega
      calc (2 : ℕ) ^ 970 + 2 < 2 ^ 970 + 2 ^ 970 := h2
        _ = 2 ^ 971 := by ring
        _ ≤ 2 ^ 1024 := Nat.pow_le_pow_right (by norm_num) (by norm_num)
    simp only [floatOverflowBound]
    omega
  simpa using parseFloat_in_range hd hlt

/-! ## Claim theorems -/

/-- C9: in the auxiliary IP-ranges round trip (`customDo`), the guard
`StatusCode < 200 && StatusCode >= 400` is false for every status code,
so the guarded error branch is unreachable: no response status produces
the "error HTTP response while retrieving IP ranges" failure — every
status either returns at 304 or proceeds to decode the body. -/
theorem customDo_errHTTP_unreachable (status : Int) :
    customDoClassify status =
      (if status = 304 then .notModified else .decodeBody) ∧
    ∀ s : Int, customDoClassify status ≠ .errHTTPResponse s := by
  have hguard : ¬ (status < 200 ∧ 400 ≤ status) := by omega
  refine ⟨by simp [customDoClassify, hguard], fun s => ?_⟩
  simp only [customDoClassify, if_neg hguard]
  split <;> simp

/-- C9 witness: at status 404 the guard does not fire and the body is
decoded; at 304 the round trip returns without decoding. -/
theorem customDo_errHTTP_unreachable_witness :
    customDoClassify 404 = .decodeBody ∧ customDoClassify 304 = .notModified ∧
    customDoClassify 404 ≠ .errHTTPResponse 404 := by
  refine ⟨?_, ?_, (customDo_errHTTP_unreachable 404).2 404⟩
  · have h := (customDo_errHTTP_unreachable 404).1
    simpa using h
  · have h := (customDo_errHTTP_unreachable 304).1
    simpa using h

/-- C4: for a completed attempt whose cancellation signal has not fired,
`retryHTTPCheck` retries a transport-level error exactly when the
server-error-retry flag is enabled and surfaces that error; with a
response it retries exactly when the status is 429 or the status is at
least 500 with the flag enabled, and in every other case does not
retry. -/
theorem retryHTTPCheck_decision (flag : Bool) (e : String) (status : Int) :
    retryHTTPCheck flag none (.error e) = (flag, some e) ∧
    ((retryHTTPCheck flag none (.ok status)).1 = true ↔
      status = 429 ∨ (500 ≤ status ∧ flag = true)) ∧
    (retryHTTPCheck flag none (.ok status)).2 = none := by
  refine ⟨rfl, ?_, ?_⟩
  · simp only [retryHTTPCheck]
    split
    · rename_i h
      simp only [true_iff]
      rcases h with h | ⟨hf, hs⟩
      · exact Or.inl h
      · exact Or.inr ⟨hs, hf⟩
    · rename_i h
      push_neg at h
      simp only [Bool.false_eq_true, false_iff]
      rintro (rfl | ⟨hs, hf⟩)
      · exact absurd rfl h.1
      · exact absurd hs (not_le.mpr (h.2 hf))
  · simp only [retryHTTPCheck]
    split <;> rfl

/-- C4 witness: with the flag enabled, a transport error retries and is
surfaced, a 503 retries, a 429 retries even with the flag disabled, and
a 404 does not retry. -/
theorem retryHTTPCheck_decision_witness :
    retryHTTPCheck true none (.error "eof") = (true, some "eof") ∧
    (retryHTTPCheck true none (.ok 503)).1 = true ∧
    (retryHTTPCheck false none (.ok 429)).1 = true ∧
    (retryHTTPCheck false none (.ok 404)).1 = false := by
  refine ⟨(retryHTTPCheck_decision true "eof" 503).1, ?_, ?_, ?_⟩
  · exact (retryHTTPCheck_decision true "eof" 503).2.1.mpr
      (Or.inr ⟨by norm_num, rfl⟩)
  · exact (retryHTTPCheck_decision false "eof" 429).2.1.mpr (Or.inl rfl)
  · by_contra hc
    have h := (retryHTTPCheck_decision false "eof" 404).2.1.mp
      (by revert hc; decide)
    rcases h with h | ⟨h, hf⟩
    · exact absurd h (by norm_num)
    · exact absurd hf (by decide)

/-- C3: `configureLimiter` given the raw limit string `"100"` installs a
steady rate of exactly 66 requests per second with burst exactly 33;
given the empty string, or a non-positive parsed numeric value, it
installs the infinite rate with zero burst, whose token acquisition
never blocks. -/
theorem configureLimiter_values :
    configureLimiter "100" = .limiter (.rate 66) 33 ∧
    configureLimiter "" = .limiter .inf 0 ∧
    limiterNeverBlocks .inf = true ∧
    (∀ s : String, ∀ q : ℚ, s ≠ "" → parseFloat s = (.num q, none) → q ≤ 0 →
      configureLimiter s = .limiter .inf 0) := by
  refine ⟨?_, rfl, rfl, fun s q hs hp hq => ?_⟩
  · have hne : ¬ ("100" : String) = "" := by decide
    simp only [configureLimiter, if_neg hne, parseFloat_100]
    have hpos : FloatVal.isPos (.num 100) = true := by
      simp [FloatVal.isPos]
    simp only [hpos, if_pos rfl, Option.isSome_none, Bool.false_eq_true, if_false,
      if_neg (by simp : ¬ (false = true))]
    norm_num [intTrunc]
  · have hpos : FloatVal.isPos (.num q) = false := by
      simp [FloatVal.isPos, not_lt.mpr hq]
    simp [configureLimiter, hs, hp, hpos]

/-- C3 witness: the raw value `"0"` parses to the non-positive value `0`
and installs the never-blocking infinite rate, like the empty value. -/
theorem configureLimiter_values_witness :
    configureLimiter "0" = .limiter .inf 0 ∧
    configureLimiter "100" = .limiter (.rate 66) 33 ∧
    limiterNeverBlocks .inf = true := by
  refine ⟨configureLimiter_values.2.2.2 "0" 0 (by decide) parseFloat_0 le_rfl,
    configureLimiter_values.1, configureLimiter_values.2.2.1⟩

/-- C5: for a 429 response carrying the rate-reset header value `"2"`
and backoff bounds 100ms and 400ms (in nanoseconds), the wait computed
by `rateLimitBackoff` is at least 2 seconds and strictly below
2 seconds + 300ms, whatever the pseudo-random draw in `[0, 1)` is. -/
theorem rateLimitBackoff_reset2 (r : ℚ) (h0 : 0 ≤ r) (h1 : r < 1) :
    ∃ w : Int, rateLimitBackoff 100000000 400000000 (some "2") r = .ok w ∧
      2000000000 ≤ w ∧ w < 2000000000 + 300000000 := by
  have hj0 : (0 : ℚ) ≤ r * 300000000 := mul_nonneg h0 (by norm_num)
  have hj1 : r * 300000000 < 300000000 := by
    calc r * 300000000 < 1 * 300000000 :=
          mul_lt_mul_of_pos_right h1 (by norm_num)
      _ = 300000000 := one_mul _
  have hfl0 : (0 : Int) ≤ ⌊r * 300000000⌋ := Int.floor_nonneg.mpr hj0
  have hfl1 : ⌊r * 300000000⌋ < 300000000 := by
    rw [Int.floor_lt]
    exact_mod_cast hj1
  refine ⟨2000000000 + ⌊r * 300000000⌋, ?_, by omega, by omega⟩
  have hcast : (((400000000 - 100000000 : Int)) : ℚ) = 300000000 := by norm_num
  have hbillion : rateLimitBackoff.resetTimesBillion (.num 2) =
      .num 2000000000 := by
    simp only [rateLimitBackoff.resetTimesBillion]
    norm_num
  simp only [rateLimitBackoff, hcast, if_neg (by decide : ¬ ("2" : String) = ""),
    parseFloat_2, hbillion]
  have hcond : FloatVal.isPos (.num 2) = true ∧
      (100000000 : Int) < durationOfFloat (.num 2000000000) := by
    constructor
    · simp [FloatVal.isPos]
    · simp only [durationOfFloat, intTrunc, if_pos (by norm_num : (0:ℚ) ≤ 2000000000)]
      norm_num
  rw [if_pos hcond]
  simp only [durationOfFloat, intTrunc, if_pos hj0,
    if_pos (by norm_num : (0:ℚ) ≤ 2000000000)]
  norm_num

/-- C5 witness: the draw `1/2` yields the wait
2 seconds + 150ms, inside the stated bounds. -/
theorem rateLimitBackoff_reset2_witness :
    ∃ w : Int, rateLimitBackoff 100000000 400000000 (some "2") (1/2) = .ok w ∧
      2000000000 ≤ w ∧ w < 2000000000 + 300000000 :=
  rateLimitBackoff_reset2 (1/2) (by norm_num) (by norm_num)

/-- The overflowing header parses to `+Inf` together with a range
error. -/
theorem parseFloat_overflowRateLimit :
    parseFloat overflowRateLimit = (.posInf, some .rangeErr) := by
  have hd : digitsToNat overflowRateLimit.data = some (2 * 10 ^ 308) := by decide
  have hge : floatOverflowBound ≤ 2 * 10 ^ 308 := by decide
  exact parseFloat_overflow hd hge

/-- C10 counterexample: the raw rate-limit string `2` followed by 308
zeros (the decimal digits of `2 * 10 ^ 308`, above the `float64` range)
parses to `+Inf` with a range error, passes the positivity guard, and
reaches the fatal-abort path: `configureLimiter` is not total. -/
theorem configureLimiter_overflow_fatal :
    configureLimiter overflowRateLimit = .fatal := by
  have hne : ¬ overflowRateLimit = "" := by decide
  simp only [configureLimiter, if_neg hne, parseFloat_overflowRateLimit]
  simp [FloatVal.isPos]

/-- A parse reporting a syntax error carries the value `0`. -/
theorem parseFloat_syntax_val {s : String}
    (h : (parseFloat s).2 = some .syntaxErr) : (parseFloat s).1 = .num 0 := by
  simp only [parseFloat] at h ⊢
  rcases hd : digitsToNat s.data with _ | n
  · simp [hd]
  · rw [hd] at h
    by_cases hb : floatOverflowBound ≤ n
    · simp [hb] at h
    · simp [hb] at h

/-- C10, amended: `configureLimiter` reaches its internal fatal-abort
path exactly on the non-empty inputs whose parse yields a positive value
together with an error (the range-overflow strings); for every non-empty
string whose parse fails with a syntax error, the parsed value is zero,
the positivity guard fails, and the limiter is configured to the
unlimited never-blocking setting. -/
theorem configureLimiter_fatal_characterization (s : String) :
    (configureLimiter s = .fatal ↔
      s ≠ "" ∧ (parseFloat s).1.isPos = true ∧ (parseFloat s).2.isSome = true) ∧
    (s ≠ "" → (parseFloat s).2 = some .syntaxErr →
      configureLimiter s = .limiter .inf 0) := by
  constructor
  · by_cases hs : s = ""
    · subst hs
      simp [configureLimiter]
    · rcases hp : parseFloat s with ⟨fv, err⟩
      simp only [configureLimiter, if_neg hs, hp]
      cases hfv : fv.isPos
      · simp [hs, hfv]
      · cases err with
        | none =>
            cases fv <;> simp [hs, hfv]
        | some e =>
            simp [hs, hfv]
  · intro hs hsyn
    have hval : (parseFloat s).1 = .num 0 := parseFloat_syntax_val hsyn
    rcases hp : parseFloat s with ⟨fv, err⟩
    rw [hp] at hval
    simp only at hval
    subst hval
    simp only [configureLimiter, if_neg hs, hp]
    simp [FloatVal.isPos]

/-- C10 witness: the non-numeric raw value `"abc"` parses with a syntax
error and value zero, and the limiter is configured unlimited without
aborting. -/
theorem configureLimiter_fatal_characterization_witness :
    configureLimiter "abc" = .limiter .inf 0 :=
  (configureLimiter_fatal_characterization "abc").2 (by decide) (by decide)

/-- C1 counterexample: a destination struct declaring an `Items` field
but no `Pagination` field is not rejected — `unmarshalResponse` returns
no error at all on a well-formed single-resource body, and it decodes
into the destination (here the single-payload decode runs), contradicting
"fails with a descriptive error and does not populate any part". -/
theorem unmarshalResponse_one_field_no_error :
    (unmarshalResponse (α := Unit) ⟨true, true, false, true⟩
        ⟨.ok (), .ok [], .ok ⟨1, 0, 2, 2, 5⟩⟩ {}).2 = none ∧
    (unmarshalResponse (α := Unit) ⟨true, true, false, true⟩
        ⟨.ok (), .ok [], .ok ⟨1, 0, 2, 2, 5⟩⟩ {}).1.singleDecoded = true := by
  constructor <;> rfl

/-- C1, amended: a destination struct declaring exactly one of the two
fields `Items` and `Pagination` is treated exactly like one declaring
neither — `unmarshalResponse` delegates the whole body to the
single-resource decode branch (`jsonapi.UnmarshalPayload`) and raises no
shape error of its own. -/
theorem unmarshalResponse_one_field_single {α : Type} (shape : DestShape)
    (hS : shape.isStruct = true) (hx : shape.hasItems ≠ shape.hasPagination)
    (body : ResponseBody α) (dst : Dest α) :
    unmarshalResponse shape body dst = unmarshalSingle body dst := by
  cases hi : shape.hasItems <;> cases hp : shape.hasPagination <;>
    first
      | (exfalso; rw [hi, hp] at hx; exact hx rfl)
      | simp [unmarshalResponse, hS, hi, hp]

/-- C1 witness: at the shape declaring only `Items` and a body whose
single-resource decode succeeds, the result is the single-branch
result. -/
theorem unmarshalResponse_one_field_single_witness :
    unmarshalResponse (α := Unit) ⟨true, true, false, true⟩
        ⟨.ok (), .ok [], .ok ⟨1, 0, 2, 2, 5⟩⟩ {} =
      unmarshalSingle ⟨.ok (), .ok [], .ok ⟨1, 0, 2, 2, 5⟩⟩ {} :=
  unmarshalResponse_one_field_single ⟨true, true, false, true⟩ rfl
    (by decide) ⟨.ok (), .ok [], .ok ⟨1, 0, 2, 2, 5⟩⟩ {}

/-- C8: a destination struct declaring both a `Pagination` field and an
`Items` field whose type is not a slice makes `unmarshalResponse` fail
with `ErrItemsMustBeSlice`, leaving the destination exactly as it was —
no partial population. -/
theorem unmarshalResponse_items_not_slice {α : Type} (shape : DestShape)
    (hS : shape.isStruct = true) (hI : shape.hasItems = true)
    (hP : shape.hasPagination = true) (hSl : shape.itemsIsSlice = false)
    (body : ResponseBody α) (dst : Dest α) :
    unmarshalResponse shape body dst = (dst, some .itemsMustBeSlice) := by
  simp [unmarshalResponse, hS, hI, hP, hSl]

/-- C8 witness: at the concrete non-slice-`Items` shape, with a body
whose every decode would succeed, the destination comes back untouched
with `ErrItemsMustBeSlice`. -/
theorem unmarshalResponse_items_not_slice_witness :
    unmarshalResponse (α := Unit) ⟨true, true, true, false⟩
        ⟨.ok (), .ok [(), ()], .ok ⟨1, 0, 2, 2, 5⟩⟩ {} =
      ({}, some .itemsMustBeSlice) :=
  unmarshalResponse_items_not_slice ⟨true, true, true, false⟩ rfl rfl rfl rfl
    ⟨.ok (), .ok [(), ()], .ok ⟨1, 0, 2, 2, 5⟩⟩ {}

/-- C6: `serializeRequestBody` fails with `ErrInvalidRequestBody` on a
slice of non-pointer elements and on a payload that is neither a slice
nor a pointer; and on a shape-valid payload whose model type carries at
least one `jsonapi`-tagged field and at least one `json`-tagged field it
fails with `ErrInvalidStructFormat` instead of choosing an encoding. -/
theorem serializeRequestBody_rejections (fl : List FieldTags) :
    serializeRequestBody (.slice false fl) = .errInvalidRequestBody ∧
    serializeRequestBody .otherKind = .errInvalidRequestBody ∧
    (0 < countJSONAPIFields fl → 0 < countJSONFields fl →
      serializeRequestBody (.ptr fl) = .errInvalidStructFormat ∧
      serializeRequestBody (.slice true fl) = .errInvalidStructFormat) := by
  refine ⟨rfl, rfl, fun h1 h2 => ⟨?_, ?_⟩⟩ <;>
    simp [serializeRequestBody, serializeRequestBody.serializeModel, h1, h2]

/-- C6 witness: a model type with one field tagged for both dialects is
rejected as `ErrInvalidStructFormat` behind a pointer and behind a slice
of pointers; a slice of non-pointers is `ErrInvalidRequestBody`. -/
theorem serializeRequestBody_rejections_witness :
    serializeRequestBody (.ptr [⟨"primary", "name"⟩]) = .errInvalidStructFormat ∧
    serializeRequestBody (.slice true [⟨"primary", "name"⟩]) =
      .errInvalidStructFormat ∧
    serializeRequestBody (.slice false [⟨"primary", "name"⟩]) =
      .errInvalidRequestBody := by
  have h := serializeRequestBody_rejections [⟨"primary", "name"⟩]
  have hc := h.2.2 (by decide) (by decide)
  exact ⟨hc.1, hc.2, h.1⟩

/-- C2: on a 409 response, a path ending in `actions/lock` classifies as
workspace-locked; a path ending in `actions/unlock` decodes the error
payload and classifies as workspace-locked-by-run exactly when some
decoded message contains the substring `is locked by Run`, and as
workspace-not-locked otherwise; a path ending in `actions/force-unlock`
classifies as workspace-not-locked unconditionally. -/
theorem checkResponseCode_409_dispatch (path statusLine : String)
    (raw : RawErrorPayload) :
    (hasSuffix path "actions/lock" = true →
      checkResponseCode 409 path statusLine raw = some .workspaceLocked) ∧
    (hasSuffix path "actions/unlock" = true →
      ∀ errs : List String, decodeErrorPayload statusLine raw = .ok errs →
        (checkResponseCode 409 path statusLine raw = some .workspaceLockedByRun ↔
          ∃ e ∈ errs, strContains e "is locked by Run" = true) ∧
        (checkResponseCode 409 path statusLine raw = some .workspaceNotLocked ↔
          ¬ ∃ e ∈ errs, strContains e "is locked by Run" = true)) ∧
    (hasSuffix path "actions/force-unlock" = true →
      checkResponseCode 409 path statusLine raw = some .workspaceNotLocked) := by
  have h2xx : ¬ ((200 : Int) ≤ 409 ∧ (409 : Int) ≤ 299) := by omega
  have h401 : ¬ ((409 : Int) = 401) := by omega
  have h404 : ¬ ((409 : Int) = 404) := by omega
  refine ⟨fun hl => ?_, fun hu errs hd => ?_, fun hf => ?_⟩
  · simp only [checkResponseCode, if_neg h2xx, if_neg h401, if_neg h404]
    rw [if_pos ⟨by trivial, hl⟩]
  · have hlock : hasSuffix path "actions/lock" = false :=
      hasSuffix_excl (by decide) (by decide) hu
    simp only [checkResponseCode, if_neg h2xx, if_neg h401, if_neg h404]
    rw [if_neg (fun hcon => by rw [hlock] at hcon; exact absurd hcon.2 (by simp)),
      if_pos ⟨by trivial, hu⟩, hd]
    dsimp only
    by_cases hc : errorPayloadContains errs "is locked by Run" = true
    · rw [if_pos hc]
      refine ⟨iff_of_true rfl ((errorPayloadContains_iff errs _).mp hc), ?_⟩
      refine iff_of_false (by simp) ?_
      exact fun hn => hn ((errorPayloadContains_iff errs _).mp hc)
    · rw [if_neg hc]
      refine ⟨iff_of_false (by simp) ?_, ?_⟩
      · exact fun hex => hc ((errorPayloadContains_iff errs _).mpr hex)
      · refine iff_of_true rfl ?_
        exact fun hex => hc ((errorPayloadContains_iff errs _).mpr hex)
  · have hlock : hasSuffix path "actions/lock" = false :=
      hasSuffix_excl (by decide) (by decide) hf
    have hunlock : hasSuffix path "actions/unlock" = false :=
      hasSuffix_excl (by decide) (by decide) hf
    simp only [checkResponseCode, if_neg h2xx, if_neg h401, if_neg h404]
    rw [if_neg (fun hcon => by rw [hlock] at hcon; exact absurd hcon.2 (by simp)),
      if_neg (fun hcon => by rw [hunlock] at hcon; exact absurd hcon.2 (by simp)),
      if_pos ⟨by trivial, hf⟩]

/-- C2 witness: a 409 on `.../actions/unlock` whose payload detail holds
`is locked by Run run-123` classifies as workspace-locked-by-run, and the
otherwise-identical payload without the substring as
workspace-not-locked; a 409 on `.../actions/lock` is workspace-locked
and on `.../actions/force-unlock` workspace-not-locked. -/
theorem checkResponseCode_409_dispatch_witness :
    checkResponseCode 409 "/ws-1/actions/unlock" "409 Conflict"
        (some [⟨"Conflict", "Workspace is locked by Run run-123"⟩]) =
      some .workspaceLockedByRun ∧
    checkResponseCode 409 "/ws-1/actions/unlock" "409 Conflict"
        (some [⟨"Conflict", "Workspace is locked by user alice"⟩]) =
      some .workspaceNotLocked ∧
    checkResponseCode 409 "/ws-1/actions/lock" "409 Conflict" none =
      some .workspaceLocked ∧
    checkResponseCode 409 "/ws-1/actions/force-unlock" "409 Conflict" none =
      some .workspaceNotLocked := by
  refine ⟨?_, ?_, ?_, ?_⟩
  · exact ((checkResponseCode_409_dispatch "/ws-1/actions/unlock" "409 Conflict"
        (some [⟨"Conflict", "Workspace is locked by Run run-123"⟩])).2.1
      (by decide) ["Conflict\n\nWorkspace is locked by Run run-123"] rfl).1.mpr
      ⟨"Conflict\n\nWorkspace is locked by Run run-123", by decide, by decide⟩
  · exact ((checkResponseCode_409_dispatch "/ws-1/actions/unlock" "409 Conflict"
        (some [⟨"Conflict", "Workspace is locked by user alice"⟩])).2.1
      (by decide) ["Conflict\n\nWorkspace is locked by user alice"] rfl).2.mpr
      (by decide)
  · exact (checkResponseCode_409_dispatch "/ws-1/actions/lock" "409 Conflict"
      none).1 (by decide)
  · exact (checkResponseCode_409_dispatch "/ws-1/actions/force-unlock"
      "409 Conflict" none).2.2 (by decide)

theorem insertSorted_perm (x : String) (l : List String) :
    (insertSorted x l).Perm (x :: l) := by
  induction l with
  | nil => exact List.Perm.refl _
  | cons y ys ih =>
      simp only [insertSorted]
      split
      · exact List.Perm.refl _
      · exact (ih.cons y).trans (List.Perm.swap x y ys)

theorem sortStrings_perm (l : List String) : (sortStrings l).Perm l := by
  induction l with
  | nil => exact List.Perm.refl _
  | cons x xs ih =>
      exact (insertSorted_perm x (sortStrings xs)).trans (ih.cons x)

theorem lookup_eq_of_mem (v : List (String × List String)) (k : String)
    (vs : List String) (hn : (v.map Prod.fst).Nodup) (hm : (k, vs) ∈ v) :
    v.lookup k = some vs := by
  induction v with
  | nil => cases hm
  | cons p rest ih =>
      rcases p with ⟨k1, vs1⟩
      have hn' : k1 ∉ rest.map Prod.fst ∧ (rest.map Prod.fst).Nodup := by
        rw [List.map_cons, List.nodup_cons] at hn
        exact hn
      rcases List.mem_cons.mp hm with h | h
      · cases h
        simp [List.lookup]
      · have hne : (k == k1) = false := by
          simp only [beq_eq_false_iff_ne, ne_eq]
          rintro rfl
          exact hn'.1 (List.mem_map.mpr ⟨(k, vs), h, rfl⟩)
        simp only [List.lookup, hne]
        exact ih hn'.2 h

theorem pairsForKey_filter_self (v : List (String × List String))
    (k : String) :
    (pairsForKey v k).filter (fun p => p.1 = k) = pairsForKey v k := by
  apply List.filter_eq_self.mpr
  intro p hp
  simp only [pairsForKey, List.mem_map] at hp
  rcases hp with ⟨x, _, rfl⟩
  simp

theorem pairsForKey_filter_ne (v : List (String × List String))
    (k k1 : String) (hne : k1 ≠ k) :
    (pairsForKey v k1).filter (fun p => p.1 = k) = [] := by
  rw [List.filter_eq_nil_iff]
  intro p hp
  simp only [pairsForKey, List.mem_map] at hp
  rcases hp with ⟨x, _, rfl⟩
  simp [hne]

theorem emit_foldr_filter (v : List (String × List String)) (k : String)
    (keys : List String) :
    ((keys.foldr (fun k1 acc => pairsForKey v k1 ++ acc) []).filter
        (fun p => p.1 = k)) =
      ((keys.filter (fun k1 => k1 = k)).foldr
        (fun k1 acc => pairsForKey v k1 ++ acc) []) := by
  induction keys with
  | nil => rfl
  | cons k1 ks ih =>
      simp only [List.foldr_cons, List.filter_append, ih, List.filter_cons]
      by_cases h : k1 = k
      · subst h
        simp [pairsForKey_filter_self]
      · simp [h, pairsForKey_filter_ne v k k1 h]

/-- C7: in the pair sequence `encodeQueryParams` emits, a key that is
`include` or shaped like a bracketed filter key and has more than one
value appears exactly once, carrying its values comma-joined in their
original order; every other key appears once per value as repeated
`key=value` pairs. -/
theorem encodeQueryParams_multivalue (v : List (String × List String))
    (k : String) (vs : List String) (hn : (v.map Prod.fst).Nodup)
    (hm : (k, vs) ∈ v) :
    (validSliceKey k = true → 1 < vs.length →
      (emittedPairs v).filter (fun p => p.1 = k) =
        [(k, String.intercalate "," vs)]) ∧
    (validSliceKey k = false →
      (emittedPairs v).filter (fun p => p.1 = k) = vs.map fun x => (k, x)) := by
  have hkmem : k ∈ v.map Prod.fst := List.mem_map.mpr ⟨(k, vs), hm, rfl⟩
  have hperm := sortStrings_perm (v.map Prod.fst)
  have hcount : List.count k (sortStrings (v.map Prod.fst)) = 1 := by
    rw [hperm.count_eq]
    exact List.count_eq_one_of_mem hn hkmem
  have hfilter : (sortStrings (v.map Prod.fst)).filter (fun k1 => k1 = k) =
      [k] := by
    have hrep := List.filter_eq (sortStrings (v.map Prod.fst)) k
    rw [hcount] at hrep
    simpa using hrep
  have hlookup : v.lookup k = some vs := lookup_eq_of_mem v k vs hn hm
  have hmain : (emittedPairs v).filter (fun p => p.1 = k) = pairsForKey v k := by
    rw [emittedPairs, emit_foldr_filter, hfilter]
    simp
  constructor
  · intro hvk hlen
    rw [hmain]
    simp only [pairsForKey, hlookup, Option.getD_some, encodeValuesForKey,
      if_pos (show 1 < vs.length ∧ validSliceKey k from ⟨hlen, hvk⟩)]
    rfl
  · intro hvk
    rw [hmain]
    simp only [pairsForKey, hlookup, Option.getD_some, encodeValuesForKey]
    rw [if_neg]
    rintro ⟨_, h2⟩
    rw [hvk] at h2
    exact absurd h2 (by simp)

/-- C7 witness: with keys `include` (two values) and `page` (two
values), the emitted pairs hold `include` exactly once with the
comma-joined value `workspace,run`, and `page` once per value. -/
theorem encodeQueryParams_multivalue_witness :
    ((emittedPairs [("include", ["workspace", "run"]), ("page", ["1", "2"])]).filter
        (fun p => p.1 = "include") = [("include", "workspace,run")]) ∧
    ((emittedPairs [("include", ["workspace", "run"]), ("page", ["1", "2"])]).filter
        (fun p => p.1 = "page") = [("page", "1"), ("page", "2")]) := by
  constructor
  · exact (encodeQueryParams_multivalue
      [("include", ["workspace", "run"]), ("page", ["1", "2"])]
      "include" ["workspace", "run"] (by decide) (by decide)).1
      (by decide) (by decide)
  · exact (encodeQueryParams_multivalue
      [("include", ["workspace", "run"]), ("page", ["1", "2"])]
      "page" ["1", "2"] (by decide) (by decide)).2 (by decide)

end GoTfe
